import Mathlib

/-!
Verification of the mx-api-monitoring aggregation storage, HTTP surface and
agent report client against its specification.

The SQLite-backed store (services/aggregation/storage/sqlite.go) is embedded
as a pure state type: the `metrics` table is an association list keyed by the
primary key `name`, the `metrics_values` table is a list of rows carrying an
explicit `rowid`.  SQLite assigns each inserted row a rowid larger than every
live rowid; the embedding uses a monotone counter (`nextRowid`), which agrees
with the engine on everything the queries observe (relative insertion order).
`ORDER BY recorded_at DESC` on this schema is executed by the engine as an
index search on `metric_name` followed by a stable temporary B-tree sort, so
rows with equal `recorded_at` come out in insertion (rowid-ascending) order;
the relation `rankBefore` captures exactly that deterministic output order,
and `olderFirst` the ascending `ORDER BY recorded_at` of the history query.
-/

namespace MxApi

/-- One row of the `metrics` definitions table (columns other than the
primary key `name`, which is the association-list key). -/
structure MetricRow where
  type : String
  numAggregation : Int
  displayOrder : Int
deriving DecidableEq, Repr

/-- One row of the `metrics_values` table, with its SQLite rowid. -/
structure ValueRow where
  rowid : Nat
  metricName : String
  value : String
  recordedAt : Int
deriving DecidableEq, Repr

/-- The persisted database state: definitions table, values table, and the
rowid counter for the next inserted value row. -/
structure Store where
  metrics : List (String × MetricRow)
  values : List ValueRow
  nextRowid : Nat
deriving DecidableEq, Repr

/-- The freshly created (empty-schema) database; SQLite rowids start at 1. -/
def Store.empty : Store := ⟨[], [], 1⟩

/-- Well-formedness maintained by the engine: value rowids are distinct and
below the next rowid to be assigned. -/
def Store.WF (s : Store) : Prop :=
  (s.values.map (·.rowid)).Nodup ∧ ∀ v ∈ s.values, v.rowid < s.nextRowid

instance (s : Store) : Decidable s.WF := by
  unfold Store.WF; infer_instance

/-- Query `SELECT * FROM metrics_values WHERE metric_name = ?`. -/
def valuesFor (s : Store) (name : String) : List ValueRow :=
  s.values.filter (fun v => v.metricName == name)

/-- Query `SELECT ... FROM metrics WHERE name = ?` (primary-key lookup). -/
def defLookup (s : Store) (name : String) : Option MetricRow :=
  (s.metrics.find? (fun p => p.1 == name)).map (·.2)

/-- Output order of `ORDER BY recorded_at DESC` as SQLite produces it here:
larger timestamps first, and rows with equal timestamps in insertion
(rowid-ascending) order, because the engine scans the `metric_name` index in
rowid order and sorts with a stable temporary B-tree. -/
def rankBefore (a b : ValueRow) : Prop :=
  b.recordedAt < a.recordedAt ∨ (a.recordedAt = b.recordedAt ∧ a.rowid ≤ b.rowid)

instance : DecidableRel rankBefore := fun a b => by
  unfold rankBefore; infer_instance

instance : IsTotal ValueRow rankBefore :=
  ⟨fun a b => by unfold rankBefore; omega⟩

instance : IsTrans ValueRow rankBefore :=
  ⟨fun a b c hab hbc => by unfold rankBefore at *; omega⟩

/-- Output order of the ascending `ORDER BY recorded_at` of the history
query (ties again in insertion order). -/
def olderFirst (a b : ValueRow) : Prop :=
  a.recordedAt < b.recordedAt ∨ (a.recordedAt = b.recordedAt ∧ a.rowid ≤ b.rowid)

instance : DecidableRel olderFirst := fun a b => by
  unfold olderFirst; infer_instance

/-- Step (a) of `SaveMetric`: `INSERT INTO metrics ... ON CONFLICT(name) DO
UPDATE SET type=excluded.type, num_aggregation=excluded.num_aggregation`.
`display_order` keeps its stored value on conflict and defaults to 0 on
insert. -/
def upsertDef : List (String × MetricRow) → String → String → Int → List (String × MetricRow)
  | [], name, ty, numAgg => [(name, ⟨ty, numAgg, 0⟩)]
  | (k, d) :: rest, name, ty, numAgg =>
    if k == name then (k, { d with type := ty, numAggregation := numAgg }) :: rest
    else (k, d) :: upsertDef rest name ty numAgg

/-- The store after step (a) of `SaveMetric`. -/
def upsertStage (s : Store) (name ty : String) (numAgg : Int) : Store :=
  { s with metrics := upsertDef s.metrics name ty numAgg }

/-- Step (b) of `SaveMetric`: `INSERT INTO metrics_values (metric_name,
value, recorded_at) VALUES (?, ?, ?)`. -/
def insertValue (s : Store) (name valString : String) (recordedAt : Int) : Store :=
  { s with
    values := s.values ++ [⟨s.nextRowid, name, valString, recordedAt⟩]
    nextRowid := s.nextRowid + 1 }

/-- The rowids produced by `SELECT rowid FROM metrics_values WHERE
metric_name = ? ORDER BY recorded_at DESC LIMIT ?`.  A negative SQL LIMIT
means no limit; `LIMIT 0` selects nothing. -/
def keptRowids (rows : List ValueRow) (limit : Int) : List Nat :=
  if limit < 0 then rows.map (·.rowid)
  else ((List.insertionSort rankBefore rows).take limit.toNat).map (·.rowid)

/-- Step (c) of `SaveMetric`: `DELETE FROM metrics_values WHERE metric_name
= ? AND rowid NOT IN (SELECT rowid ... ORDER BY recorded_at DESC LIMIT ?)`. -/
def trimMetric (s : Store) (name : String) (limit : Int) : Store :=
  { s with
    values := s.values.filter
      (fun v => v.metricName != name || (keptRowids (valuesFor s name) limit).contains v.rowid) }

/-- The `SaveMetric` operation (sqlite.go): upsert the definition, insert the value row,
then prune everything for that name outside the `numAggregation` window; the
three statements commit as one transaction, hence one state transition. -/
def SaveMetric (s : Store) (name ty : String) (numAgg : Int) (valString : String)
    (recordedAt : Int) : Store :=
  trimMetric (insertValue (upsertStage s name ty numAgg) name valString recordedAt) name numAgg

/-- The sweep `cleanRetainedMetrics` (with the clock passed explicitly): `DELETE FROM
metrics_values WHERE recorded_at < ?` at cutoff `now - retentionSeconds`. -/
def cleanRetainedMetrics (s : Store) (nowSec retentionSeconds : Int) : Store :=
  { s with values := s.values.filter (fun v => !(v.recordedAt < nowSec - retentionSeconds)) }

/-- The `DeleteMetric` operation: `DELETE FROM metrics WHERE name = ?`.
The schema declares `ON DELETE CASCADE` on `metrics_values`, but SQLite's
`PRAGMA foreign_keys` is per-connection, the DSN
(`?_journal_mode=WAL&_busy_timeout=5000`) never enables it, and
`createSchema` runs the pragma through one `db.Exec`, reaching a single
connection of the `database/sql` pool.  `fkEnforced` records whether the
delete happens to execute on that connection: only then does the cascade
remove the value rows; on every other pool connection the definition row
is deleted and the value rows are left orphaned. -/
def DeleteMetric (s : Store) (name : String) (fkEnforced : Bool) : Store :=
  { s with
    metrics := s.metrics.filter (fun p => p.1 != name)
    values :=
      if fkEnforced then s.values.filter (fun v => v.metricName != name) else s.values }

/-- A `common.MetricValue` row as returned to the API. -/
structure MetricValue where
  value : String
  recordedAt : Int
deriving DecidableEq, Repr

/-- A `common.MetricHistory` record as returned to the API. -/
structure MetricHistory where
  name : String
  type : String
  numAggregation : Int
  displayOrder : Int
  history : List MetricValue
deriving DecidableEq, Repr

/-- The `GetMetricHistory` operation: definition lookup (missing row is the
`metric not found` error), then the values ascending by `recorded_at`. -/
def GetMetricHistory (s : Store) (name : String) : Except String MetricHistory :=
  match s.metrics.find? (fun p => p.1 == name) with
  | none => Except.error "metric not found"
  | some (_, d) =>
    Except.ok ⟨name, d.type, d.numAggregation, d.displayOrder,
      (List.insertionSort olderFirst (valuesFor s name)).map (fun v => ⟨v.value, v.recordedAt⟩)⟩

/-- The error `database/sql` raises when `GetLatestMetrics` scans the NULL
columns the LEFT JOIN produces for a definition with no value rows into the
non-nullable `string`/`int64` destinations. -/
def scanNullError : String := "sql: converting NULL to string is unsupported"

/-- The row loop of `GetLatestMetrics`: for each definition the joined row
carries its most recent value (`ROW_NUMBER ... ORDER BY recorded_at DESC`,
rn = 1), or NULLs when the definition has no value rows, in which case
`rows.Scan` fails and the whole call returns that error. -/
def getLatestLoop (vals : List ValueRow) : List (String × MetricRow) → Except String (List MetricHistory)
  | [] => Except.ok []
  | (name, d) :: rest =>
    match (List.insertionSort rankBefore (vals.filter (fun v => v.metricName == name))).head? with
    | none => Except.error scanNullError
    | some v =>
      match getLatestLoop vals rest with
      | Except.error e => Except.error e
      | Except.ok tl =>
        Except.ok (⟨name, d.type, d.numAggregation, d.displayOrder, [⟨v.value, v.recordedAt⟩]⟩ :: tl)

/-- The `GetLatestMetrics` operation (sqlite.go). -/
def GetLatestMetrics (s : Store) : Except String (List MetricHistory) :=
  getLatestLoop s.values s.metrics

/-! API layer (services/aggregation/api, the `server` methods). -/

/-- One entry of `MetricReportPayload.Metrics` (also the agent's
`common.MetricPayload`: the two wire structs have the same fields). -/
structure MetricPayload where
  value : String
  type : String
  numAggregation : Int
deriving DecidableEq, Repr

/-- The `authAPIKey` middleware: the request proceeds iff the `X-Api-Key`
header exactly equals the configured service key. -/
def authAPIKey (serviceKey key : String) : Bool :=
  key == serviceKey

/-- The body of `handleReport` after JSON binding: sample the clock once
(`recordedAt := time.Now().Unix()`, passed here explicitly), then call
`SaveMetric` for every entry of the metrics map with that one timestamp. -/
def handleReport (s : Store) (metrics : List (String × MetricPayload)) (recordedAt : Int) : Store :=
  metrics.foldl (fun st e => SaveMetric st e.1 e.2.type e.2.numAggregation e.2.value recordedAt) s

/-- The `/api/report` route as gin runs it: `authAPIKey` middleware first
(abort 401, storage untouched), then `handleReport` (400 on a body that
fails JSON binding, modelled as `none`; otherwise save all and answer 200).
Returns the HTTP status and the resulting store. -/
def reportRoute (serviceKey key : String) (body : Option (List (String × MetricPayload)))
    (now : Int) (s : Store) : Nat × Store :=
  if authAPIKey serviceKey key then
    match body with
    | none => (400, s)
    | some metrics => (200, handleReport s metrics now)
  else (401, s)

/-- Outcome of an authentication middleware: abort with an HTTP status, or
fall through to the handler (`c.Next()`). -/
inductive AuthOutcome where
  | reject (status : Nat) (msg : String)
  | pass
deriving DecidableEq, Repr

/-- Go `strings.Split(tokenStr, ".")`: split on every dot, keeping empty
pieces; never returns an empty list. -/
def splitOnDot : List Char → List (List Char)
  | [] => [[]]
  | c :: rest =>
    match splitOnDot rest with
    | [] => [[c]]
    | p :: ps => if c = '.' then [] :: p :: ps else (c :: p) :: ps

/-- The `exp` claim the middleware checks: `claims.Exp` stays at its zero
value unless the payload part base64-decodes (`b64`) and the JSON
unmarshal yields an `exp` field (`jsonExpD`, which returns 0 itself when
the bytes are not JSON or carry no `exp`). -/
def tokenExp (b64 : List Char → Option (List Nat)) (jsonExpD : List Nat → Int)
    (payloadPart : List Char) : Int :=
  match b64 payloadPart with
  | none => 0
  | some pb => jsonExpD pb

/-- The `authJWT` middleware over an abstract HMAC-SHA256 (`mac`), base64url
decoder (`b64`) and JSON `exp` extraction (`jsonExpD`); bytes are `List
Nat`, header/token text is `List Char`.  Mirrors the source's checks in
order: `Bearer ` prefix, exactly 3 dot-parts, signature part decodes and
equals the recomputed HMAC of `header.payload` (the source compares with
`hmac.Equal`), and the expiry claim is not in the past. -/
def authJWT (mac : List Nat → List Char → List Nat) (b64 : List Char → Option (List Nat))
    (jsonExpD : List Nat → Int) (secret : List Nat) (now : Int)
    (authHeader : List Char) : AuthOutcome :=
  if List.isPrefixOf "Bearer ".toList authHeader then
    if (splitOnDot (authHeader.drop 7)).length = 3 then
      match b64 ((splitOnDot (authHeader.drop 7)).getD 2 []) with
      | none => AuthOutcome.reject 401 "invalid token sign"
      | some sig =>
        if sig = mac secret
            ((splitOnDot (authHeader.drop 7)).getD 0 [] ++ '.' :: (splitOnDot (authHeader.drop 7)).getD 1 []) then
          if now > tokenExp b64 jsonExpD ((splitOnDot (authHeader.drop 7)).getD 1 []) then
            AuthOutcome.reject 401 "token expired"
          else AuthOutcome.pass
        else AuthOutcome.reject 401 "unauthorized"
    else AuthOutcome.reject 401 "invalid token"
  else AuthOutcome.reject 401 "missing token"

/-! Agent report client (services/agent/reporter/httpReporter.go). -/

/-- The agent's `config.EndpointConfig`. -/
structure EndpointConfig where
  name : String
  url : String
  value : String
  type : String
  numAggregation : Int
deriving DecidableEq, Repr

/-- The agent's `common.MetricResult`: one successful poll. -/
structure MetricResult where
  config : EndpointConfig
  value : String
deriving DecidableEq, Repr

/-- Go map assignment `m[k] = v` on a map represented as an association
list: replace the entry for `k` if present, else append it. -/
def mapUpsert : List (String × MetricPayload) → String → MetricPayload → List (String × MetricPayload)
  | [], k, v => [(k, v)]
  | (k0, v0) :: rest, k, v =>
    if k0 == k then (k0, v) :: rest else (k0, v0) :: mapUpsert rest k v

/-- Number of payload entries stored under key `k`. -/
def countKey (m : List (String × MetricPayload)) (k : String) : Nat :=
  m.countP (fun p => p.1 == k)

/-- The heartbeat key `r.agentID + separator + activeHeartbeatName`. -/
def heartbeatKey (agentID : String) : String :=
  agentID ++ "." ++ "Active"

/-- Payload construction in `Report`: copy every poll result into the
metrics map, then unconditionally set the heartbeat entry
`"<agentID>.Active" = {"true", "bool", 1}`. -/
def buildReportPayload (agentID : String) (results : List (String × MetricResult)) :
    List (String × MetricPayload) :=
  mapUpsert
    (results.foldl (fun acc r => mapUpsert acc r.1 ⟨r.2.value, r.2.config.type, r.2.config.numAggregation⟩) [])
    (heartbeatKey agentID) ⟨"true", "bool", 1⟩

/-! Helper lemmas. -/

/-- The definitions upsert leaves an entry for `name` whose `type` and
`num_aggregation` are the reported ones. -/
theorem find_upsertDef (m : List (String × MetricRow)) (name ty : String) (nA : Int) :
    ∃ d : MetricRow, (upsertDef m name ty nA).find? (fun p => p.1 == name) = some (name, d)
      ∧ d.type = ty ∧ d.numAggregation = nA := by
  induction m with
  | nil => exact ⟨⟨ty, nA, 0⟩, by simp [upsertDef], rfl, rfl⟩
  | cons hd tl ih =>
    obtain ⟨k0, d0⟩ := hd
    by_cases hk : k0 = name
    · subst hk
      exact ⟨{ d0 with type := ty, numAggregation := nA }, by simp [upsertDef], rfl, rfl⟩
    · obtain ⟨d, hfind, hty, hn⟩ := ih
      exact ⟨d, by simp [upsertDef, hk, hfind], hty, hn⟩

/-- The delete-filter of the trim step, restricted back to the metric's own
rows, keeps exactly the rows whose rowid is in the window selection. -/
theorem filter_trim_filter (l : List ValueRow) (name : String) (K : List Nat) :
    (l.filter (fun v => v.metricName != name || K.contains v.rowid)).filter
        (fun v => v.metricName == name)
      = (l.filter (fun v => v.metricName == name)).filter
          (fun v => K.contains v.rowid) := by
  rw [List.filter_filter, List.filter_filter]
  apply List.filter_congr
  intro v _
  cases hb : (v.metricName == name) <;> simp [hb, bne]

/-- After the trim step, the rows stored for `name` are exactly the previous
rows whose rowid survived the window query. -/
theorem valuesFor_trimMetric (s : Store) (name : String) (limit : Int) :
    valuesFor (trimMetric s name limit) name
      = (valuesFor s name).filter
          (fun v => (keptRowids (valuesFor s name) limit).contains v.rowid) :=
  filter_trim_filter s.values name (keptRowids (valuesFor s name) limit)

/-- Any value row present after `SaveMetric` was already stored or carries
the `recordedAt` of that call. -/
theorem mem_values_saveMetric {v : ValueRow} {s : Store} {name ty valString : String}
    {nA t : Int} (h : v ∈ (SaveMetric s name ty nA valString t).values) :
    v ∈ s.values ∨ v.recordedAt = t := by
  unfold SaveMetric trimMetric insertValue upsertStage at h
  simp only [List.mem_filter] at h
  have h1 := h.1
  rw [List.mem_append] at h1
  rcases h1 with h1 | h1
  · exact Or.inl h1
  · simp only [List.mem_singleton] at h1
    right
    rw [h1]

/-! C10 — `SaveMetric` with `numAggregation = 0` keeps the definition but
trims away every value row, the fresh one included. -/

/-- C10: a save with window 0 succeeds, upserts the definition with
`num_aggregation` 0, and leaves zero stored values for the metric. -/
theorem saveMetric_zero_window (s : Store) (name ty valString : String) (t : Int) :
    valuesFor (SaveMetric s name ty 0 valString t) name = [] ∧
    ∃ d : MetricRow, defLookup (SaveMetric s name ty 0 valString t) name = some d
      ∧ d.type = ty ∧ d.numAggregation = 0 := by
  constructor
  · unfold SaveMetric
    rw [valuesFor_trimMetric]
    have hkept : keptRowids (valuesFor (insertValue (upsertStage s name ty 0) name valString t) name) 0 = [] := by
      simp [keptRowids]
    rw [hkept]
    simp
  · obtain ⟨d, hfind, hty, hn⟩ := find_upsertDef s.metrics name ty 0
    exact ⟨d, by simp [defLookup, SaveMetric, trimMetric, insertValue, upsertStage, hfind], hty, hn⟩

/-! C4 — `GetMetricHistory` is NotFound exactly when the definition row is
missing; a definition with zero values yields an empty history. -/

/-- C4: the NotFound error occurs iff no definition row exists; when the
definition exists and no value rows remain (e.g. after the TTL sweep), the
call succeeds with an empty history array. -/
theorem getMetricHistory_notFound_iff (s : Store) (name : String) :
    (GetMetricHistory s name = Except.error "metric not found" ↔ defLookup s name = none) ∧
    (∀ d : MetricRow, defLookup s name = some d → valuesFor s name = [] →
      GetMetricHistory s name = Except.ok ⟨name, d.type, d.numAggregation, d.displayOrder, []⟩) := by
  constructor
  · cases h : s.metrics.find? (fun p => p.1 == name) with
    | none => simp [GetMetricHistory, defLookup, h]
    | some p =>
      obtain ⟨k, d⟩ := p
      simp [GetMetricHistory, defLookup, h]
  · intro d hd hv
    cases h : s.metrics.find? (fun p => p.1 == name) with
    | none => simp [defLookup, h] at hd
    | some p =>
      obtain ⟨k, d0⟩ := p
      simp [defLookup, h] at hd
      subst hd
      simp [GetMetricHistory, h, hv]

/-- C4 witness store: one save, then the TTL sweep at a time far past the
retention window, leaving the definition with zero value rows. -/
def c4Store : Store :=
  cleanRetainedMetrics (SaveMetric Store.empty "old.metric" "string" 10 "stale_value" 5) 100 3

/-- C4 witness: on the swept store the history call still succeeds, with an
empty history. -/
theorem getMetricHistory_notFound_iff_witness :
    GetMetricHistory c4Store "old.metric" = Except.ok ⟨"old.metric", "string", 10, 0, []⟩ :=
  (getMetricHistory_notFound_iff c4Store "old.metric").2 ⟨"string", 10, 0⟩ (by decide) (by decide)

/-! C8 — `DeleteMetric` and the cascade: the definition row always goes
(so the later history call is NotFound, and deleting an absent name also
succeeds), but the cascade on the value rows only happens on the one pool
connection where `createSchema`'s `PRAGMA foreign_keys = ON` took effect;
on any other connection the value rows are orphaned. -/

/-- C8 failing store: one saved metric holding one value row. -/
def c8Store : Store := SaveMetric Store.empty "m" "uint64" 5 "7" 5

/-- C8: deleting `m` on a pool connection without foreign-key enforcement
(`fkEnforced = false`, the default of every connection the DSN opens)
removes the definition row — `GetMetricHistory` answers NotFound, and a
second delete of the now-absent name also succeeds — yet the value row
survives orphaned instead of being cascaded away; only on the pragma'd
connection (`fkEnforced = true`) does the cascade remove it, as the claim
expects of every delete. -/
theorem deleteMetric_orphan :
    defLookup (DeleteMetric c8Store "m" false) "m" = none ∧
    GetMetricHistory (DeleteMetric c8Store "m" false) "m" = Except.error "metric not found" ∧
    GetMetricHistory (DeleteMetric (DeleteMetric c8Store "m" false) "m" false) "m"
      = Except.error "metric not found" ∧
    valuesFor (DeleteMetric c8Store "m" false) "m" = [⟨1, "m", "7", 5⟩] ∧
    valuesFor (DeleteMetric c8Store "m" true) "m" = [] :=
  ⟨rfl, rfl, rfl, rfl, rfl⟩

/-! C3 — `GetLatestMetrics` on a store holding a definition with zero value
rows: the LEFT JOIN produces NULLs which the code scans into non-nullable
`string`/`int64`, so the whole call errors instead of reporting the
definition with an absent value. -/

/-- C3 failing store: one save, then the TTL sweep removes its only value. -/
def c3Store : Store :=
  cleanRetainedMetrics (SaveMetric Store.empty "old.metric" "string" 10 "stale_value" 5) 100 3

/-- C3: on the swept store the definition is still present, yet
`GetLatestMetrics` returns the scan error rather than an entry with a null
latest value. -/
theorem getLatestMetrics_scan_error :
    GetLatestMetrics c3Store = Except.error scanNullError ∧
    defLookup c3Store "old.metric" = some ⟨"string", 10, 0⟩ :=
  ⟨rfl, rfl⟩

/-! C7 — a report with the wrong shared key is rejected with 401 before the
handler runs, leaving the store untouched. -/

/-- C7: whenever the `X-Api-Key` header differs from the configured key the
report route answers 401 and the store is returned unchanged — no
definition row and no value row is written. -/
theorem reportRoute_badKey (serviceKey key : String)
    (body : Option (List (String × MetricPayload))) (now : Int) (s : Store)
    (h : key ≠ serviceKey) :
    reportRoute serviceKey key body now s = (401, s) := by
  simp [reportRoute, authAPIKey, h]

/-- C7 witness: a concrete mismatched key on a non-empty payload. -/
theorem reportRoute_badKey_witness :
    ("wrong" : String) ≠ "secret" ∧
    reportRoute "secret" "wrong" (some [("m", ⟨"1", "uint64", 1⟩)]) 5 Store.empty
      = (401, Store.empty) :=
  ⟨by decide, reportRoute_badKey "secret" "wrong" _ 5 Store.empty (by decide)⟩

/-! C9 — `handleReport` samples the clock once; every row it writes in one
request carries that single timestamp. -/

/-- C9: every value row present after `handleReport` either predates the
request or carries the request's single `recordedAt`; the clock is sampled
once and shared by all `SaveMetric` calls of the request. -/
theorem handleReport_one_timestamp (s : Store) (metrics : List (String × MetricPayload))
    (now : Int) (v : ValueRow) (h : v ∈ (handleReport s metrics now).values) :
    v ∈ s.values ∨ v.recordedAt = now := by
  induction metrics generalizing s with
  | nil => exact Or.inl h
  | cons e rest ih =>
    simp only [handleReport, List.foldl_cons] at h
    rcases ih (SaveMetric s e.1 e.2.type e.2.numAggregation e.2.value now) h with h1 | h1
    · exact mem_values_saveMetric h1
    · exact Or.inr h1

/-- C9 witness: a one-entry report on the empty store; its stored row
carries the request timestamp. -/
theorem handleReport_one_timestamp_witness :
    (⟨1, "m", "7", 5⟩ : ValueRow) ∈ (handleReport Store.empty [("m", ⟨"7", "uint64", 2⟩)] 5).values ∧
    ((⟨1, "m", "7", 5⟩ : ValueRow) ∈ Store.empty.values ∨ (⟨1, "m", "7", 5⟩ : ValueRow).recordedAt = 5) :=
  ⟨by decide,
    handleReport_one_timestamp Store.empty [("m", ⟨"7", "uint64", 2⟩)] 5 ⟨1, "m", "7", 5⟩ (by decide)⟩

/-! C1 — trim invariant. -/

/-- Appending a value row carrying the next rowid keeps the rowids distinct. -/
theorem nodup_rowids_append (s : Store) (hWF : s.WF) (r : ValueRow)
    (hr : r.rowid = s.nextRowid) :
    ((s.values ++ [r]).map (·.rowid)).Nodup := by
  rw [List.map_append, List.nodup_append]
  refine ⟨hWF.1, List.nodup_singleton _, ?_⟩
  intro x hx hx2
  simp only [List.map_cons, List.map_nil, List.mem_singleton] at hx2
  rw [List.mem_map] at hx
  obtain ⟨v, hv, rfl⟩ := hx
  have := hWF.2 v hv
  omega

/-- Rows with distinct rowids filtered through a rowid allowlist `K` number
at most `K.length`. -/
theorem length_filter_contains_le (l : List ValueRow) (K : List Nat)
    (hnd : (l.map (·.rowid)).Nodup) :
    (l.filter (fun v => K.contains v.rowid)).length ≤ K.length := by
  have hndf : ((l.filter (fun v => K.contains v.rowid)).map (·.rowid)).Nodup :=
    List.Nodup.sublist ((List.filter_sublist l).map _) hnd
  have hsub : ((l.filter (fun v => K.contains v.rowid)).map (·.rowid)) ⊆ K := by
    intro x hx
    rw [List.mem_map] at hx
    obtain ⟨v, hv, rfl⟩ := hx
    have := (List.mem_filter.mp hv).2
    simpa using this
  have := (List.subperm_of_subset hndf hsub).length_le
  rwa [List.length_map] at this

/-- C1: on a well-formed store, any `SaveMetric` with window `n ≥ 1` leaves
at most `n` stored value rows for that metric name. -/
theorem saveMetric_trim_invariant (s : Store) (hWF : s.WF) (name ty valString : String)
    (n t : Int) (hn : 1 ≤ n) :
    ((valuesFor (SaveMetric s name ty n valString t) name).length : Int) ≤ n := by
  unfold SaveMetric
  rw [valuesFor_trimMetric]
  have hndall : ((insertValue (upsertStage s name ty n) name valString t).values.map (·.rowid)).Nodup :=
    nodup_rowids_append s hWF _ rfl
  have hnd : ((valuesFor (insertValue (upsertStage s name ty n) name valString t) name).map (·.rowid)).Nodup :=
    List.Nodup.sublist ((List.filter_sublist _).map _) hndall
  have hlen := length_filter_contains_le
    (valuesFor (insertValue (upsertStage s name ty n) name valString t) name)
    (keptRowids (valuesFor (insertValue (upsertStage s name ty n) name valString t) name) n) hnd
  have hK : (keptRowids (valuesFor (insertValue (upsertStage s name ty n) name valString t) name) n).length ≤ n.toNat := by
    unfold keptRowids
    rw [if_neg (by omega)]
    rw [List.length_map, List.length_take]
    omega
  have hcomb := le_trans hlen hK
  omega

/-- C1 witness: saving one value with window 1 on the empty store leaves at
most one stored row. -/
theorem saveMetric_trim_invariant_witness :
    Store.empty.WF ∧ (1 : Int) ≤ 1 ∧
    ((valuesFor (SaveMetric Store.empty "m" "uint64" 1 "7" 5) "m").length : Int) ≤ 1 :=
  ⟨by decide, by decide,
    saveMetric_trim_invariant Store.empty (by decide) "m" "uint64" "7" 1 5 (by decide)⟩

/-! C2 — the deterministic order of the trim.  The engine executes `ORDER BY
recorded_at DESC` here through a stable sort over the rowid-ordered index
scan, so ties on `recorded_at` rank earlier-inserted rows as more recent;
the claim's tie-break direction (earliest-inserted pruned first) is the
opposite of what the code does. -/

/-- C2 counterexample store: three saves of the same metric with window 2,
all at the same `recordedAt`. -/
def c2Store : Store :=
  SaveMetric
    (SaveMetric (SaveMetric Store.empty "m" "uint64" 2 "a" 100) "m" "uint64" 2 "b" 100)
    "m" "uint64" 2 "c" 100

/-- C2 counterexample: with retention 2 and three values inserted in
sequence at the same `recordedAt`, the earliest-inserted row (rowid 1,
value "a") is retained and the latest-inserted row (rowid 3, value "c") is
the one pruned — the claim's tie-break direction fails. -/
theorem saveMetric_tiebreak_counterexample :
    (⟨1, "m", "a", 100⟩ : ValueRow) ∈ valuesFor c2Store "m" ∧
    (⟨3, "m", "c", 100⟩ : ValueRow) ∉ valuesFor c2Store "m" ∧
    (valuesFor c2Store "m").map (fun v => (v.rowid, v.value)) = [(1, "a"), (2, "b")] := by
  refine ⟨by decide, by decide, by decide⟩

/-- C2 (amended): the trim keeps the `retentionCount` top rows of the order
`recordedAt` descending with insertion order ascending as the deterministic
tiebreaker — every retained row strictly dominates every pruned row in that
order: later `recordedAt`, or equal `recordedAt` and earlier insertion
(smaller rowid). -/
theorem saveMetric_tiebreak (s : Store) (hWF : s.WF) (name ty valString : String)
    (n t : Int) (a b : ValueRow)
    (ha : a ∈ valuesFor (SaveMetric s name ty n valString t) name)
    (hb : b ∈ valuesFor (insertValue (upsertStage s name ty n) name valString t) name)
    (hbp : b ∉ valuesFor (SaveMetric s name ty n valString t) name) :
    b.recordedAt < a.recordedAt ∨ (b.recordedAt = a.recordedAt ∧ a.rowid < b.rowid) := by
  unfold SaveMetric at ha hbp
  rw [valuesFor_trimMetric] at ha hbp
  have hndall : ((insertValue (upsertStage s name ty n) name valString t).values.map (·.rowid)).Nodup :=
    nodup_rowids_append s hWF _ rfl
  have hnd : ((valuesFor (insertValue (upsertStage s name ty n) name valString t) name).map (·.rowid)).Nodup :=
    List.Nodup.sublist ((List.filter_sublist _).map _) hndall
  rw [List.mem_filter] at ha
  obtain ⟨haRows, haKept⟩ := ha
  have hbKeptFalse : ¬ ((keptRowids (valuesFor (insertValue (upsertStage s name ty n) name valString t) name) n).contains b.rowid = true) := by
    intro hc
    exact hbp (List.mem_filter.mpr ⟨hb, hc⟩)
  by_cases hneg : n < 0
  · exfalso
    apply hbKeptFalse
    unfold keptRowids
    rw [if_pos hneg]
    simpa using List.mem_map_of_mem (·.rowid) hb
  · have hperm : List.Perm
        (List.insertionSort rankBefore (valuesFor (insertValue (upsertStage s name ty n) name valString t) name))
        (valuesFor (insertValue (upsertStage s name ty n) name valString t) name) :=
      List.perm_insertionSort rankBefore _
    have hsortedS := List.sorted_insertionSort rankBefore
      (valuesFor (insertValue (upsertStage s name ty n) name valString t) name)
    have hndSorted : ((List.insertionSort rankBefore (valuesFor (insertValue (upsertStage s name ty n) name valString t) name)).map (·.rowid)).Nodup :=
      ((hperm.map (·.rowid)).nodup_iff).mpr hnd
    have hkept_def : keptRowids (valuesFor (insertValue (upsertStage s name ty n) name valString t) name) n
        = ((List.insertionSort rankBefore (valuesFor (insertValue (upsertStage s name ty n) name valString t) name)).take n.toNat).map (·.rowid) := by
      unfold keptRowids
      rw [if_neg hneg]
    have haTake : a ∈ (List.insertionSort rankBefore (valuesFor (insertValue (upsertStage s name ty n) name valString t) name)).take n.toNat := by
      have hmm : a.rowid ∈ ((List.insertionSort rankBefore (valuesFor (insertValue (upsertStage s name ty n) name valString t) name)).take n.toNat).map (·.rowid) := by
        rw [← hkept_def]
        simpa using haKept
      rw [List.mem_map] at hmm
      obtain ⟨u, hu, huid⟩ := hmm
      have huS := List.mem_of_mem_take hu
      have haS : a ∈ List.insertionSort rankBefore (valuesFor (insertValue (upsertStage s name ty n) name valString t) name) :=
        hperm.mem_iff.mpr haRows
      have : u = a := List.inj_on_of_nodup_map hndSorted huS haS huid
      rwa [this] at hu
    have hbSorted : b ∈ List.insertionSort rankBefore (valuesFor (insertValue (upsertStage s name ty n) name valString t) name) :=
      hperm.mem_iff.mpr hb
    have hbDrop : b ∈ (List.insertionSort rankBefore (valuesFor (insertValue (upsertStage s name ty n) name valString t) name)).drop n.toNat := by
      have hsplit := List.take_append_drop n.toNat
        (List.insertionSort rankBefore (valuesFor (insertValue (upsertStage s name ty n) name valString t) name))
      rw [← hsplit, List.mem_append] at hbSorted
      rcases hbSorted with hmem | hmem
      · exfalso
        apply hbKeptFalse
        rw [hkept_def]
        simpa using List.mem_map_of_mem (·.rowid) hmem
      · exact hmem
    have hrel : rankBefore a b := hsortedS.rel_of_mem_take_of_mem_drop haTake hbDrop
    have hne : a.rowid ≠ b.rowid := by
      intro he
      have hab : a = b := List.inj_on_of_nodup_map hnd haRows hb he
      rw [hab] at haKept
      exact hbKeptFalse haKept
    unfold rankBefore at hrel
    omega

/-- C2 witness: the third same-timestamp save with window 2; the retained
row ("b", rowid 2) strictly dominates the pruned latest-inserted row ("c",
rowid 3) in the corrected order. -/
theorem saveMetric_tiebreak_witness :
    (SaveMetric (SaveMetric Store.empty "m" "uint64" 2 "a" 100) "m" "uint64" 2 "b" 100).WF ∧
    ((100 : Int) < 100 ∨ ((100 : Int) = 100 ∧ (2 : Nat) < 3)) :=
  ⟨by decide,
    saveMetric_tiebreak
      (SaveMetric (SaveMetric Store.empty "m" "uint64" 2 "a" 100) "m" "uint64" 2 "b" 100)
      (by decide) "m" "uint64" "c" 2 100 ⟨2, "m", "b", 100⟩ ⟨3, "m", "c", 100⟩
      (by decide) (by decide) (by decide)⟩

/-! C5 — the report payload always carries exactly one heartbeat entry. -/

/-- Setting a key in the payload map leaves the count of any key bounded by
its previous count, raising it to 1 only when the key-was absent. -/
theorem countKey_mapUpsert_self (m : List (String × MetricPayload)) (k : String) (v : MetricPayload) :
    countKey (mapUpsert m k v) k = if countKey m k = 0 then 1 else countKey m k := by
  induction m with
  | nil => simp [mapUpsert, countKey]
  | cons hd tl ih =>
    obtain ⟨k0, v0⟩ := hd
    by_cases h : k0 = k
    · subst h
      simp [mapUpsert, countKey, List.countP_cons]
    · have hm : mapUpsert ((k0, v0) :: tl) k v = (k0, v0) :: mapUpsert tl k v := by
        simp [mapUpsert, h]
      have hc : countKey ((k0, v0) :: tl) k = countKey tl k := by
        simp [countKey, List.countP_cons, h]
      have hc2 : countKey ((k0, v0) :: mapUpsert tl k v) k = countKey (mapUpsert tl k v) k := by
        simp [countKey, List.countP_cons, h]
      rw [hm, hc2, hc, ih]

/-- Setting one key never changes the count of a different key. -/
theorem countKey_mapUpsert_ne (m : List (String × MetricPayload)) (k' : String)
    (v : MetricPayload) (k : String) (h : k' ≠ k) :
    countKey (mapUpsert m k' v) k = countKey m k := by
  induction m with
  | nil => simp [mapUpsert, countKey, h]
  | cons hd tl ih =>
    obtain ⟨k0, v0⟩ := hd
    by_cases h0 : k0 = k'
    · subst h0
      simp [mapUpsert, countKey, List.countP_cons]
    · simpa [mapUpsert, h0, countKey, List.countP_cons] using ih

/-- Folding poll results into the payload map keeps every key's entry count
at most one. -/
theorem countKey_fold_le_one (key : String) (results : List (String × MetricResult))
    (acc : List (String × MetricPayload)) (hacc : countKey acc key ≤ 1) :
    countKey
      (results.foldl
        (fun acc r => mapUpsert acc r.1 ⟨r.2.value, r.2.config.type, r.2.config.numAggregation⟩) acc)
      key ≤ 1 := by
  induction results generalizing acc with
  | nil => exact hacc
  | cons r rest ih =>
    rw [List.foldl_cons]
    apply ih
    by_cases h : r.1 = key
    · subst h
      rw [countKey_mapUpsert_self]
      split <;> omega
    · rw [countKey_mapUpsert_ne _ _ _ _ h]
      exact hacc

/-- After setting a key, the first entry found for it holds the new payload. -/
theorem find_mapUpsert (m : List (String × MetricPayload)) (k : String) (v : MetricPayload) :
    (mapUpsert m k v).find? (fun p => p.1 == k) = some (k, v) := by
  induction m with
  | nil => simp [mapUpsert]
  | cons hd tl ih =>
    obtain ⟨k0, v0⟩ := hd
    by_cases h : k0 = k
    · subst h
      simp [mapUpsert]
    · simp [mapUpsert, h, ih]

/-- C5: for every poll result set (the empty one included) the report
payload holds exactly one entry under the heartbeat key
`<agentID>.Active`, and that entry is `{"true", "bool", 1}`. -/
theorem report_heartbeat (agentID : String) (results : List (String × MetricResult)) :
    countKey (buildReportPayload agentID results) (heartbeatKey agentID) = 1 ∧
    (buildReportPayload agentID results).find? (fun p => p.1 == heartbeatKey agentID)
      = some (heartbeatKey agentID, ⟨"true", "bool", 1⟩) := by
  constructor
  · unfold buildReportPayload
    have hbase := countKey_fold_le_one (heartbeatKey agentID) results []
      (by simp [countKey])
    rw [countKey_mapUpsert_self]
    split <;> omega
  · exact find_mapUpsert _ _ _

/-! C6 — the JWT middleware: pass iff exactly-3 parts, matching signature
and unexpired claim; every other outcome is a 401 rejection before the
handler runs. -/

/-- Every outcome of the middleware is either falling through to the
handler or a 401 rejection. -/
theorem authJWT_pass_or_reject (mac : List Nat → List Char → List Nat)
    (b64 : List Char → Option (List Nat)) (jsonExpD : List Nat → Int)
    (secret : List Nat) (now : Int) (hdr : List Char) :
    authJWT mac b64 jsonExpD secret now hdr = AuthOutcome.pass ∨
    ∃ msg, authJWT mac b64 jsonExpD secret now hdr = AuthOutcome.reject 401 msg := by
  unfold authJWT
  by_cases h1 : List.isPrefixOf "Bearer ".toList hdr = true
  · rw [if_pos h1]
    by_cases h3 : (splitOnDot (hdr.drop 7)).length = 3
    · rw [if_pos h3]
      cases hb : b64 ((splitOnDot (hdr.drop 7)).getD 2 []) with
      | none => exact Or.inr ⟨"invalid token sign", rfl⟩
      | some sig =>
        dsimp only
        by_cases hsig : sig = mac secret
            ((splitOnDot (hdr.drop 7)).getD 0 [] ++ '.' :: (splitOnDot (hdr.drop 7)).getD 1 [])
        · rw [if_pos hsig]
          by_cases hexp : now > tokenExp b64 jsonExpD ((splitOnDot (hdr.drop 7)).getD 1 [])
          · rw [if_pos hexp]
            exact Or.inr ⟨"token expired", rfl⟩
          · rw [if_neg hexp]
            exact Or.inl rfl
        · rw [if_neg hsig]
          exact Or.inr ⟨"unauthorized", rfl⟩
    · rw [if_neg h3]
      exact Or.inr ⟨"invalid token", rfl⟩
  · rw [if_neg h1]
    exact Or.inr ⟨"missing token", rfl⟩

/-- C6: a bearer token reaches the handler iff it splits into exactly 3
dot-parts, its signature part decodes to exactly the recomputed
HMAC-SHA256 of `header.payload` under the process secret, and its decoded
expiry claim is not in the past; every other bearer token is rejected with
status 401 before the handler. -/
theorem authJWT_gate (mac : List Nat → List Char → List Nat)
    (b64 : List Char → Option (List Nat)) (jsonExpD : List Nat → Int)
    (secret : List Nat) (now : Int) (hdr : List Char)
    (hbearer : List.isPrefixOf "Bearer ".toList hdr = true) :
    (authJWT mac b64 jsonExpD secret now hdr = AuthOutcome.pass ↔
      ((splitOnDot (hdr.drop 7)).length = 3 ∧
       b64 ((splitOnDot (hdr.drop 7)).getD 2 []) =
         some (mac secret
           ((splitOnDot (hdr.drop 7)).getD 0 [] ++ '.' :: (splitOnDot (hdr.drop 7)).getD 1 [])) ∧
       now ≤ tokenExp b64 jsonExpD ((splitOnDot (hdr.drop 7)).getD 1 []))) ∧
    (authJWT mac b64 jsonExpD secret now hdr ≠ AuthOutcome.pass →
      ∃ msg, authJWT mac b64 jsonExpD secret now hdr = AuthOutcome.reject 401 msg) := by
  constructor
  · unfold authJWT
    rw [if_pos hbearer]
    by_cases h3 : (splitOnDot (hdr.drop 7)).length = 3
    · rw [if_pos h3]
      cases hb : b64 ((splitOnDot (hdr.drop 7)).getD 2 []) with
      | none => simp [h3, hb]
      | some sig =>
        dsimp only
        by_cases hsig : sig = mac secret
            ((splitOnDot (hdr.drop 7)).getD 0 [] ++ '.' :: (splitOnDot (hdr.drop 7)).getD 1 [])
        · rw [if_pos hsig]
          by_cases hexp : now > tokenExp b64 jsonExpD ((splitOnDot (hdr.drop 7)).getD 1 [])
          · rw [if_pos hexp]
            constructor
            · intro h
              exact AuthOutcome.noConfusion h
            · intro hcond
              exact absurd hcond.2.2 (by omega)
          · rw [if_neg hexp]
            subst hsig
            constructor
            · intro _
              exact ⟨h3, rfl, by omega⟩
            · intro _
              rfl
        · rw [if_neg hsig]
          constructor
          · intro h
            exact AuthOutcome.noConfusion h
          · intro hcond
            exact absurd (Option.some.inj hcond.2.1) hsig
    · rw [if_neg h3]
      simp [h3]
  · intro hne
    rcases authJWT_pass_or_reject mac b64 jsonExpD secret now hdr with h | h
    · exact absurd h hne
    · exact h

/-- Concrete HMAC stand-in for the C6 witness. -/
def wMac : List Nat → List Char → List Nat := fun _ _ => [1]

/-- Concrete base64url decoder stand-in for the C6 witness. -/
def wB64 : List Char → Option (List Nat) := fun s =>
  if s = "s".toList then some [1] else if s = "p".toList then some [2] else none

/-- Concrete `exp`-claim extractor stand-in for the C6 witness. -/
def wJson : List Nat → Int := fun _ => 10

/-- C6 witness: a concrete well-formed, correctly signed, unexpired bearer
token falls through to the handler. -/
theorem authJWT_gate_witness :
    authJWT wMac wB64 wJson [9] 5 "Bearer h.p.s".toList = AuthOutcome.pass :=
  (authJWT_gate wMac wB64 wJson [9] 5 "Bearer h.p.s".toList (by decide)).1.mpr (by decide)

end MxApi
